import Mathlib

/-!
Verification development for the Epub2Txt conversion service.

The TypeScript source (`services/epubConverter.ts`, given as `src/unnamed/part_000`,
plus `src/types.ts`) is shallowly embedded here.  JavaScript strings are modelled
as `List Char`; the external black boxes are modelled at their documented
interfaces:

* JSZip: a loaded archive is a finite association list from entry paths to entry
  contents; `zip.file(path)` is lookup by exact path.
* DOMParser: a navigable node tree.  `parseFromString` never throws; feeding it
  text that is not well-formed XML yields a document whose root is a
  `parsererror` element (so every selector query on it is empty).  A raw archive
  entry is therefore either well-formed markup (carrying its node tree) or
  non-XML text (carrying the tree the lenient text/html parser would produce).
* `decodeURIComponent`: percent-decoding with UTF-8 byte sequences; malformed
  escapes raise `URIError` (modelled as `none`).  As in ECMA-262's Decode, a
  multi-byte sequence is rejected when its decoded value is below the minimum
  for its length (overlong encodings such as `%C0%80`), a surrogate, or beyond
  the scalar range.
* `Math.round((i / totalItems) * 60)` is modelled as exact rational rounding
  `⌊60 i / total + 1/2⌋`; the IEEE double computation agrees on all inputs the
  loop produces.
* `Record<string, T>` object maps are modelled as association lists with
  last-insert-wins lookup; JavaScript prototype-chain artifacts are out of scope.

Progress callback invocations and `console.log` / `console.warn` diagnostics are
collected into explicit event lists, in emission order.  A thrown `Error` is an
`Except.error` carrying the message string.
-/

deriving instance DecidableEq for Except

namespace Epub2Txt

/-- JavaScript strings are modelled as lists of characters. -/
abbrev Str := List Char

/-- The whitespace class used by `String.prototype.trim` and `\s`
(restricted to its ASCII members, the only ones this program produces). -/
def isWsChar (c : Char) : Bool :=
  c == ' ' || c == '\t' || c == '\n' || c == '\r' || c == '\x0b' || c == '\x0c'

/-- Remove leading whitespace (the left half of `String.prototype.trim`). -/
def trimLeft (s : Str) : Str := s.dropWhile isWsChar

/-- Remove trailing whitespace (the right half of `String.prototype.trim`). -/
def trimRight (s : Str) : Str := (s.reverse.dropWhile isWsChar).reverse

/-- Model of `String.prototype.trim`. -/
def jsTrim (s : Str) : Str := trimRight (trimLeft s)

/-- Model of `s.split('\n')`.  The empty string splits to one empty piece. -/
def splitLines : Str → List Str
  | [] => [[]]
  | c :: cs =>
    if c == '\n' then [] :: splitLines cs
    else
      match splitLines cs with
      | [] => [[c]]
      | l :: ls => (c :: l) :: ls

/-- Model of `lines.join('\n')`. -/
def joinLines : List Str → Str
  | [] => []
  | [l] => l
  | l :: l2 :: ls => l ++ '\n' :: joinLines (l2 :: ls)

/-- Helper for `collapseNewlines`: `k` counts the newlines just emitted. -/
def collapseAux : Nat → Str → Str
  | _, [] => []
  | k, c :: cs =>
    if c == '\n' then
      if 2 ≤ k then collapseAux k cs else '\n' :: collapseAux (k + 1) cs
    else c :: collapseAux 0 cs

/-- Model of the regex replace capping newline runs at two: cap every run of newlines at two. -/
def collapseNewlines (s : Str) : Str := collapseAux 0 s

/-- Model of `String.prototype.toLowerCase` (ASCII, all this program needs). -/
def toLowerStr (s : Str) : Str := s.map Char.toLower

/-- Does `n` occur at the head of `hay`? (`String.prototype.startsWith`.) -/
def headMatches : Str → Str → Bool
  | [], _ => true
  | _ :: _, [] => false
  | a :: as, b :: bs => a == b && headMatches as bs

/-- Model of `hay.includes(n)`: substring occurrence test. -/
def hasSubstr : Str → Str → Bool
  | [], n => n.isEmpty
  | c :: t, n => headMatches n (c :: t) || hasSubstr t n

/-- Hexadecimal digit value, if any (digits, then lowercase, then uppercase
letters, matching the ranges the URI decoder accepts). -/
def hexVal (c : Char) : Option Nat :=
  let n := c.toNat
  if 48 ≤ n && n ≤ 57 then some (n - 48)
  else if 97 ≤ n && n ≤ 102 then some (n - 87)
  else if 65 ≤ n && n ≤ 70 then some (n - 55)
  else none

/-- Value of a UTF-8 continuation byte written as two hex digits, if valid. -/
def contVal (a b : Char) : Option Nat :=
  match hexVal a, hexVal b with
  | some x, some y =>
    let v := 16 * x + y
    if 0x80 ≤ v && v < 0xC0 then some (v - 0x80) else none
  | _, _ => none

/-- Model of `decodeURIComponent`.  Here `none` models the `URIError` thrown
on a malformed escape sequence: missing or non-hex digits, a bad continuation
byte, an overlong encoding (a decoded value below the minimum for the
sequence length, e.g. `%C0%80`), a surrogate, or a value beyond the Unicode
scalar range — the checks of ECMA-262's Decode. -/
def decodeURIComponent : Str → Option Str
  | [] => some []
  | '%' :: rest =>
    match rest with
    | a :: b :: t =>
      match hexVal a, hexVal b with
      | some ha, some hb =>
        let b0 := 16 * ha + hb
        if b0 < 0x80 then
          (decodeURIComponent t).map (fun r => Char.ofNat b0 :: r)
        else if 0xC0 ≤ b0 && b0 < 0xE0 then
          match t with
          | '%' :: c :: d :: t2 =>
            match contVal c d with
            | some v1 =>
              let cp := (b0 - 0xC0) * 64 + v1
              if 0x80 ≤ cp ∧ Nat.isValidChar cp then
                (decodeURIComponent t2).map (fun r => Char.ofNat cp :: r)
              else none
            | none => none
          | _ => none
        else if 0xE0 ≤ b0 && b0 < 0xF0 then
          match t with
          | '%' :: c :: d :: '%' :: e :: f :: t2 =>
            match contVal c d, contVal e f with
            | some v1, some v2 =>
              let cp := (b0 - 0xE0) * 4096 + v1 * 64 + v2
              if 0x800 ≤ cp ∧ Nat.isValidChar cp then
                (decodeURIComponent t2).map (fun r => Char.ofNat cp :: r)
              else none
            | _, _ => none
          | _ => none
        else if 0xF0 ≤ b0 && b0 < 0xF8 then
          match t with
          | '%' :: c :: d :: '%' :: e :: f :: '%' :: g :: h :: t2 =>
            match contVal c d, contVal e f, contVal g h with
            | some v1, some v2, some v3 =>
              let cp := (b0 - 0xF0) * 262144 + v1 * 4096 + v2 * 64 + v3
              if 0x10000 ≤ cp ∧ Nat.isValidChar cp then
                (decodeURIComponent t2).map (fun r => Char.ofNat cp :: r)
              else none
            | _, _, _ => none
          | _ => none
        else none
      | _, _ => none
    | _ => none
  | c :: t => (decodeURIComponent t).map (fun r => c :: r)

/-- Model of `n.toString()` for the progress messages. -/
def natStr (n : Nat) : Str := (Nat.repr n).data

/-- A node of the DOM tree produced by the black-box parser. -/
inductive XNode where
  | text (data : Str)
  | comment (data : Str)
  | elem (tag : Str) (attrs : List (Str × Str)) (children : List XNode)

/-- Model of `el.getAttribute(name)` (first declaration of the attribute wins). -/
def nodeAttr (n : XNode) (name : Str) : Option Str :=
  match n with
  | .elem _ attrs _ => (attrs.find? (fun p => p.1 == name)).map (fun p => p.2)
  | _ => none

mutual

/-- Model of `node.textContent` of an element: concatenated descendant text. -/
def textContent : XNode → Str
  | .text s => s
  | .comment _ => []
  | .elem _ _ ch => textContentList ch

/-- Extension of `textContent` over a child list, in document order. -/
def textContentList : List XNode → Str
  | [] => []
  | c :: cs => textContent c ++ textContentList cs

end

mutual

/-- All elements with the given tag, in document (pre-)order. -/
def allTagged : XNode → Str → List XNode
  | .elem tg a ch, t =>
    (if tg == t then [XNode.elem tg a ch] else []) ++ allTaggedList ch t
  | _, _ => []

/-- Extension of `allTagged` over a child list. -/
def allTaggedList : List XNode → Str → List XNode
  | [], _ => []
  | c :: cs, t => allTagged c t ++ allTaggedList cs t

end

/-- Model of `doc.querySelector(tag)`: first element with the tag in document order. -/
def findTag (root : XNode) (t : Str) : Option XNode := (allTagged root t).head?

mutual

/-- Elements matching the child combinator `p > c`, in document order.
`pt` is the tag of the parent of the node under inspection. -/
def childScan (pt : Option Str) (p c : Str) : XNode → List XNode
  | .elem tg a ch =>
    (if pt == some p && tg == c then [XNode.elem tg a ch] else []) ++
      childScanList (some tg) p c ch
  | _ => []

/-- Extension of `childScan` over a child list. -/
def childScanList (pt : Option Str) (p c : Str) : List XNode → List XNode
  | [] => []
  | n :: ns => childScan pt p c n ++ childScanList pt p c ns

end

/-- Model of `doc.querySelectorAll('p > c')` for the selectors this program uses. -/
def childSelAll (root : XNode) (p c : Str) : List XNode := childScan none p c root

/-- A raw archive entry, at the interface of the black-box markup parser.
`xml d` is text that is well-formed XML with node tree `d` (the lenient
text/html parse agrees on the documents this program stores); `notXml d` is text
that is not well-formed XML, whose lenient text/html parse yields `d`. -/
inductive RawFile where
  | xml (d : XNode)
  | notXml (d : XNode)

/-- Model of `parseFromString(s, 'application/xml')`.  Never throws: on
non-XML input the returned document's root is a bare `parsererror` element. -/
def parseAsXml : RawFile → XNode
  | .xml d => d
  | .notXml _ => .elem ("parsererror".data) [] []

/-- Model of `parseFromString(s, 'text/html')`.  The lenient parser
always yields a tree. -/
def parseAsHtml : RawFile → XNode
  | .xml d => d
  | .notXml d => d

/-- A loaded JSZip archive: entry paths mapped to entry contents. -/
abbrev Zip := List (Str × RawFile)

/-- Model of `loadedZip.file(path)`: exact-path lookup. -/
def zipFile (z : Zip) (p : Str) : Option RawFile :=
  ((z.find? (fun e => e.1 == p)).map (fun e => e.2))

/-- Structure `EpubManifestItem` from `src/types.ts` (the optional `properties` is
materialised as `''` when absent, exactly as `convertEpubToText` stores it). -/
structure EpubManifestItem where
  id : Str
  href : Str
  mediaType : Str
  properties : Str
deriving DecidableEq

/-- Structure `ProcessedBook` from `src/types.ts`. -/
structure ProcessedBook where
  filename : Str
  title : Str
  author : Str
  content : Str
  size : Nat
deriving DecidableEq

/-- Model of the manifest object map as an association list. -/
abbrev Record := List (Str × EpubManifestItem)

/-- Object-map lookup.  Entries are pushed at the front, so first match is the
most recent write: last-wins overwrite semantics. -/
def recordGet (m : Record) (k : Str) : Option EpubManifestItem :=
  ((m.find? (fun p => p.1 == k)).map (fun p => p.2))

/-- Object-map write with overwrite semantics (see `recordGet`). -/
def recordSet (m : Record) (k : Str) (v : EpubManifestItem) : Record :=
  (k, v) :: m

/-- Tags removed before traversal:
`doc.querySelectorAll('script, style, link, meta, title, svg')`. -/
def noiseTags : List Str :=
  ["script".data, "style".data, "link".data, "meta".data, "title".data,
   "svg".data]

/-- Is this node one of the removed elements? (HTML tag matching is
case-insensitive.) -/
def isNoise (n : XNode) : Bool :=
  match n with
  | .elem t _ _ => noiseTags.contains (toLowerStr t)
  | _ => false

mutual

/-- Drop every removed element (with its subtree) from the tree. -/
def stripNode : XNode → XNode
  | .elem t a ch => .elem t a (stripList ch)
  | n => n

/-- Extension of `stripNode` over a child list. -/
def stripList : List XNode → List XNode
  | [] => []
  | c :: cs => (if isNoise c then [] else [stripNode c]) ++ stripList cs

end

/-- The block-element list of `extractTextFromHtml`. -/
def blockTags : List Str :=
  ["p".data, "div".data, "h1".data, "h2".data, "h3".data, "h4".data,
   "h5".data, "h6".data, "li".data, "br".data, "hr".data, "tr".data]

mutual

/-- The recursive `walk` of `extractTextFromHtml`: a text node contributes its
text, an element contributes prefix ++ children ++ suffix per the block table,
any other node contributes nothing. -/
def walk : XNode → Str
  | .text s => s
  | .comment _ => []
  | .elem tag _ ch =>
    let tagName := toLowerStr tag
    let ps : Str × Str :=
      if blockTags.contains tagName then
        if tagName == "p".data then ([], "\n\n".data)
        else if tagName == "br".data then ([], "\n".data)
        else if tagName == "li".data then ("• ".data, [])
        else ([], "\n".data)
      else ([], [])
    ps.1 ++ walkList ch ++ ps.2

/-- Extension of `walk` over a child list. -/
def walkList : List XNode → Str
  | [] => []
  | c :: cs => walk c ++ walkList cs

end

/-- Model of `extractTextFromHtml`: parse leniently, drop noise elements, walk from the
body (or the document root when no body exists), then normalise: cap newline
runs at two, trim each line, trim the whole result. -/
def extractTextFromHtml (f : RawFile) : Str :=
  let doc := parseAsHtml f
  let cleaned := stripNode doc
  let body := (findTag cleaned ("body".data)).getD cleaned
  let rawText := walk body
  let collapsed := collapseNewlines rawText
  let trimmedLines := joinLines ((splitLines collapsed).map jsTrim)
  jsTrim trimmedLines

/-- The fixed visual separator appended after each non-blank chapter. -/
def sepStr : Str :=
  "\n\n------------------------------------------------\n\n".data

/-- Model of the substring up to and including the last slash: the directory
portion of the OPF path, empty when there is no separator. -/
def dirOf (p : Str) : Str :=
  ((p.reverse).dropWhile (fun c => !(c == '/'))).reverse

/-- The EPUB3 nav check of the main loop:
`item.properties && item.properties.includes('nav')`. -/
def rule1Skips (props : Str) : Bool :=
  !props.isEmpty && hasSubstr props ("nav".data)

/-- The filename/identifier ToC heuristic of the main loop (only applied while
`i < 3`). -/
def rule2Skips (i : Nat) (item : EpubManifestItem) : Bool :=
  let lowerHref := toLowerStr item.href
  let lowerId := toLowerStr item.id
  let isEarly := decide (i < 3)
  isEarly && (hasSubstr lowerHref ("toc".data) ||
    hasSubstr lowerHref ("contents".data) || hasSubstr lowerId ("toc".data))

/-- Model of the loop percentage, i.e. of 30 plus the rounded fraction, as exact rational rounding. -/
def progressPercent (i total : Nat) : Nat :=
  30 + (120 * i + total) / (2 * total)

/-- One iteration of the main loop after the progress call: returns the console
diagnostics it prints and either the chunk appended to the aggregate (empty for
a skipped, missing or blank item) or the thrown error. -/
def processItem (z : Zip) (opfDir : Str) (m : Record) (i : Nat) (idref : Str) :
    List Str × Except Str Str :=
  match recordGet m idref with
  | none => ([], .ok [])
  | some item =>
    if rule1Skips item.properties then
      (["Skipping likely ToC (nav property): ".data ++ item.href], .ok [])
    else if rule2Skips i item then
      (["Skipping likely ToC (filename heuristic): ".data ++ item.href], .ok [])
    else
      let fileZipPath := opfDir ++ item.href
      match decodeURIComponent fileZipPath with
      | none => ([], .error ("URIError: URI malformed".data))
      | some decodedPath =>
        match zipFile z decodedPath with
        | none => (["File missing from zip: ".data ++ decodedPath], .ok [])
        | some fileData =>
          let text := extractTextFromHtml fileData
          if 0 < (jsTrim text).length then ([], .ok (text ++ sepStr))
          else ([], .ok [])

/-- The message of the per-item progress call. -/
def chapterMsg (i total : Nat) : Str :=
  "Processing chapter ".data ++ natStr (i + 1) ++ " of ".data ++
    natStr total ++ "...".data

/-- The main loop over the spine, starting at index `i`: collects the progress
events and console diagnostics and returns the aggregated text, or stops at the
first thrown error. -/
def goSpine (z : Zip) (opfDir : Str) (m : Record) (total : Nat) :
    List Str → Nat → List (Nat × Str) × List Str × Except Str Str
  | [], _ => ([], [], .ok [])
  | idref :: rest, i =>
    let ev := (progressPercent i total, chapterMsg i total)
    match processItem z opfDir m i idref with
    | (logs, .error e) => ([ev], logs, .error e)
    | (logs, .ok chunk) =>
      let out := goSpine z opfDir m total rest (i + 1)
      (ev :: out.1, logs ++ out.2.1, out.2.2.map (fun t => chunk ++ t))

/-- The manifest map: every `manifest > item` element carrying non-empty
`id`, `href` and `media-type` attributes, later ids overwriting earlier ones. -/
def buildManifest (opfDoc : XNode) : Record :=
  (childSelAll opfDoc ("manifest".data) ("item".data)).foldl
    (fun m node =>
      match nodeAttr node ("id".data), nodeAttr node ("href".data),
          nodeAttr node ("media-type".data) with
      | some id, some href, some mt =>
        if id.isEmpty || href.isEmpty || mt.isEmpty then m
        else
          recordSet m id
            { id := id, href := href, mediaType := mt,
              properties := (nodeAttr node ("properties".data)).getD [] }
      | _, _, _ => m)
    []

/-- The reading order: each `spine > itemref` element's `idref` (defaulted to
the empty string), keeping only non-empty identifiers present in the manifest
map. -/
def buildSpine (opfDoc : XNode) (m : Record) : List Str :=
  ((childSelAll opfDoc ("spine".data) ("itemref".data)).map
      (fun n => (nodeAttr n ("idref".data)).getD [])).filter
    (fun id => !id.isEmpty && (recordGet m id).isSome)

/-- Metadata extraction:
`opfDoc.querySelector('metadata > title')?.textContent || 'Untitled'` (and the
same for `creator` / `'Unknown Author'`). -/
def metaField (opfDoc : XNode) (tag dflt : Str) : Str :=
  match (childSelAll opfDoc ("metadata".data) tag).head? with
  | some n => let t := textContent n; if t.isEmpty then dflt else t
  | none => dflt

/-- Model of `convertEpubToText` from the source: returns the progress events, the
console diagnostics, and either the `ProcessedBook` or the thrown error. -/
def convertEpubToText (z : Zip) (fileName : Str) :
    List (Nat × Str) × List Str × Except Str ProcessedBook :=
  let ev10 : Nat × Str := (10, "Unzipping file...".data)
  match zipFile z ("META-INF/container.xml".data) with
  | none =>
    ([ev10], [], .error ("Invalid EPUB: Missing META-INF/container.xml".data))
  | some containerFile =>
    let containerDoc := parseAsXml containerFile
    match findTag containerDoc ("rootfile".data) with
    | none => ([ev10], [], .error ("Invalid EPUB: No rootfile in container.xml".data))
    | some rootfile =>
      let fullPath := (nodeAttr rootfile ("full-path".data)).getD []
      if fullPath.isEmpty then
        ([ev10], [], .error ("Invalid EPUB: rootfile path is missing".data))
      else
        let opfDir := dirOf fullPath
        let ev20 : Nat × Str := (20, "Reading metadata...".data)
        match zipFile z fullPath with
        | none =>
          ([ev10, ev20], [],
            .error ("Invalid EPUB: OPF file ".data ++ fullPath ++ " missing".data))
        | some opfFile =>
          let opfDoc := parseAsXml opfFile
          let title := metaField opfDoc ("title".data) ("Untitled".data)
          let author := metaField opfDoc ("creator".data) ("Unknown Author".data)
          let manifestItems := buildManifest opfDoc
          let spine := buildSpine opfDoc manifestItems
          let totalItems := spine.length
          let out := goSpine z opfDir manifestItems totalItems spine 0
          match out.2.2 with
          | .error e => ((ev10 :: ev20 :: out.1), out.2.1, .error e)
          | .ok fullText =>
            ((ev10 :: ev20 :: out.1) ++ [(100, "Finalizing...".data)], out.2.1,
              .ok { filename := fileName, title := title, author := author,
                    content := jsTrim fullText, size := fullText.length })

/-- A minimal chapter file whose body holds one text node. -/
def mkChapter (t : Str) : RawFile :=
  .xml (.elem ("html".data) []
    [.elem ("head".data) [] [], .elem ("body".data) [] [.text t]])

/-- The `rootfile` element of the test archives' container document. -/
def rootfileNode : XNode :=
  .elem ("rootfile".data)
    [("full-path".data, "OEBPS/content.opf".data),
     ("media-type".data, "application/oebps-package+xml".data)] []

/-- The fixed container file of the test archives, pointing at
`OEBPS/content.opf`. -/
def containerFile : RawFile :=
  .xml (.elem ("container".data) []
    [.elem ("rootfiles".data) [] [rootfileNode]])

/-- Path of the test archives' OPF file. -/
def opfPath : Str := "OEBPS/content.opf".data

/-- A manifest item element without a `properties` attribute. -/
def mkItem (id href : Str) : XNode :=
  .elem ("item".data)
    [("id".data, id), ("href".data, href),
     ("media-type".data, "application/xhtml+xml".data)] []

/-- A manifest item element with a `properties` attribute. -/
def mkItemP (id href props : Str) : XNode :=
  .elem ("item".data)
    [("id".data, id), ("href".data, href),
     ("media-type".data, "application/xhtml+xml".data),
     ("properties".data, props)] []

/-- An OPF document with fixed metadata and the given manifest items and
spine references. -/
def mkOpf (items : List XNode) (refs : List Str) : XNode :=
  .elem ("package".data) []
    [.elem ("metadata".data) []
      [.elem ("title".data) [] [.text ("My Title".data)],
       .elem ("creator".data) [] [.text ("An Author".data)]],
     .elem ("manifest".data) [] items,
     .elem ("spine".data) []
       (refs.map (fun r => .elem ("itemref".data) [("idref".data, r)] []))]

/-- An archive holding the fixed container, the given OPF document and the
given content entries. -/
def mkZip (opf : RawFile) (chapters : List (Str × RawFile)) : Zip :=
  ("META-INF/container.xml".data, containerFile) :: (opfPath, opf) :: chapters

/-- OPF of the two-chapter archive. -/
def opfTwoDoc : XNode :=
  mkOpf [mkItem ("c1".data) ("ch1.html".data),
         mkItem ("c2".data) ("ch2.html".data)]
        ["c1".data, "c2".data]

/-- Two-chapter archive: chapters `ch1.html` / `ch2.html` with bodies `a`
and `b`. -/
def zipTwo (a b : Str) : Zip :=
  mkZip (.xml opfTwoDoc)
    [("OEBPS/ch1.html".data, mkChapter a), ("OEBPS/ch2.html".data, mkChapter b)]

/-- One-chapter archive with body `"A"`. -/
def zipOne : Zip :=
  mkZip (.xml (mkOpf [mkItem ("c1".data) ("ch1.html".data)] ["c1".data]))
    [("OEBPS/ch1.html".data, mkChapter ("A".data))]

/-- Text that is not well-formed XML, as seen by the lenient text/html
parser. -/
def garbageDoc : XNode :=
  .elem ("html".data) [] [.elem ("body".data) [] [.text ("not xml at all".data)]]

/-- Archive whose OPF entry exists but is not well-formed XML. -/
def zipGarbageOpf : Zip := mkZip (.notXml garbageDoc) []

/-- Archive whose first spine item has a malformed percent escape in its
path, with a healthy chapter after it. -/
def zipBadEscape : Zip :=
  mkZip (.xml (mkOpf [mkItem ("c1".data) ("ch%zz1.html".data),
                      mkItem ("c2".data) ("ch2.html".data)]
                     ["c1".data, "c2".data]))
    [("OEBPS/ch2.html".data, mkChapter ("B".data))]

/-- OPF of the navigation-only archive. -/
def opfNavDoc : XNode :=
  mkOpf [mkItemP ("n1".data) ("nav.html".data) ("nav".data)] ["n1".data]

/-- Archive whose only spine item is an EPUB3 navigation document. -/
def zipNavOnly : Zip :=
  mkZip (.xml opfNavDoc)
    [("OEBPS/nav.html".data, mkChapter ("Contents list".data))]

/-- OPF of the missing-chapter archive. -/
def opfMissingDoc : XNode :=
  mkOpf [mkItem ("c1".data) ("ch1.html".data)] ["c1".data]

/-- Archive whose single spine item's resolved path is absent from the
archive. -/
def zipMissingChapter : Zip := mkZip (.xml opfMissingDoc) []

/-- The content document of spec Scenario D:
body `<ul><li>One</li><li>Two</li></ul>`. -/
def ulDoc : RawFile :=
  .xml (.elem ("html".data) []
    [.elem ("body".data) []
      [.elem ("ul".data) []
        [.elem ("li".data) [] [.text ("One".data)],
         .elem ("li".data) [] [.text ("Two".data)]]]])

/-- A content document whose normalised text contains a three-newline run:
body `<p>a</p> <br/><p>b</p>`. -/
def runDoc : RawFile :=
  .xml (.elem ("html".data) []
    [.elem ("body".data) []
      [.elem ("p".data) [] [.text ("a".data)],
       .text (" ".data),
       .elem ("br".data) [] [],
       .elem ("p".data) [] [.text ("b".data)]]])

/-- The dash line of the separator. -/
def sepLine : Str := "------------------------------------------------".data

/-- What a trailing separator leaves behind after the final whole-string
trim: the blank line and the dash line, with the separator's trailing blank
lines removed. -/
def sepTrimmed : Str := "\n\n------------------------------------------------".data

/-! ### Facts about the string primitives -/

lemma length_trimLeft_le (s : Str) : (trimLeft s).length ≤ s.length :=
  (List.dropWhile_sublist _).length_le

lemma length_trimRight_le (s : Str) : (trimRight s).length ≤ s.length := by
  simpa [trimRight] using (List.dropWhile_sublist (l := s.reverse) isWsChar).length_le

lemma length_jsTrim_le (s : Str) : (jsTrim s).length ≤ s.length :=
  le_trans (length_trimRight_le _) (length_trimLeft_le _)

lemma head_dropWhile_not (p : Char → Bool) (l : Str) (c : Char)
    (h : (l.dropWhile p).head? = some c) : p c = false := by
  induction l with
  | nil => simp [List.dropWhile] at h
  | cons a t ih =>
    rw [List.dropWhile_cons] at h
    by_cases hp : p a
    · simp [hp] at h
      exact ih h
    · rw [if_neg hp] at h
      simp at h
      rw [← h]
      exact Bool.eq_false_iff.mpr hp

lemma trimRight_def (s : Str) : trimRight s = (trimLeft s.reverse).reverse := rfl

lemma trimLeft_eq_self_iff (s : Str) :
    trimLeft s = s ↔ ∀ c ∈ s.head?, isWsChar c = false := by
  cases s with
  | nil => simp [trimLeft]
  | cons a t =>
    simp only [trimLeft, List.dropWhile_cons, List.head?_cons, Option.mem_def,
      Option.some.injEq]
    by_cases h : isWsChar a
    · simp only [h, if_true]
      constructor
      · intro heq
        have hlen := congrArg List.length heq
        have := (List.dropWhile_sublist (l := t) isWsChar).length_le
        simp at hlen
        omega
      · intro hc
        exact absurd (hc a rfl) (by simp [h])
    · simp only [h, if_false]
      constructor
      · intro _ c hc
        rw [← hc]
        exact Bool.eq_false_iff.mpr h
      · intro _
        rfl

lemma trimRight_eq_self_iff (s : Str) :
    trimRight s = s ↔ ∀ c ∈ s.getLast?, isWsChar c = false := by
  rw [trimRight_def]
  constructor
  · intro h c hc
    have h2 : trimLeft s.reverse = s.reverse := by
      have := congrArg List.reverse h
      simpa using this
    rw [← List.head?_reverse] at hc
    exact (trimLeft_eq_self_iff s.reverse).mp h2 c hc
  · intro h
    have h2 : trimLeft s.reverse = s.reverse := by
      apply (trimLeft_eq_self_iff s.reverse).mpr
      intro c hc
      rw [List.head?_reverse] at hc
      exact h c hc
    rw [h2, List.reverse_reverse]

lemma jsTrim_eq_self_split (s : Str) (h : jsTrim s = s) :
    trimLeft s = s ∧ trimRight s = s := by
  have h1 : (trimLeft s).length ≤ s.length := length_trimLeft_le s
  have h2 : (trimRight (trimLeft s)).length ≤ (trimLeft s).length :=
    length_trimRight_le _
  have hlen : s.length = (trimRight (trimLeft s)).length := by
    rw [jsTrim] at h
    rw [h]
  have hlen2 : (trimLeft s).length = s.length := by omega
  have hTL : trimLeft s = s :=
    List.IsSuffix.eq_of_length (List.dropWhile_suffix _) hlen2
  refine ⟨hTL, ?_⟩
  rw [jsTrim, hTL] at h
  exact h

lemma jsTrim_eq_self_iff (s : Str) :
    jsTrim s = s ↔
      (∀ c ∈ s.head?, isWsChar c = false) ∧
        (∀ c ∈ s.getLast?, isWsChar c = false) := by
  constructor
  · intro h
    obtain ⟨h1, h2⟩ := jsTrim_eq_self_split s h
    exact ⟨(trimLeft_eq_self_iff s).mp h1, (trimRight_eq_self_iff s).mp h2⟩
  · intro ⟨h1, h2⟩
    rw [jsTrim, (trimLeft_eq_self_iff s).mpr h1, (trimRight_eq_self_iff s).mpr h2]

lemma head_trimRight (s : Str) (c : Char) (h : (trimRight s).head? = some c) :
    s.head? = some c := by
  obtain ⟨t, ht⟩ := List.dropWhile_suffix (l := s.reverse) isWsChar
  have hs : s = (s.reverse.dropWhile isWsChar).reverse ++ t.reverse := by
    have := congrArg List.reverse ht
    simpa using this.symm
  rw [trimRight] at h
  cases hd : (s.reverse.dropWhile isWsChar).reverse with
  | nil => rw [hd] at h; simp at h
  | cons x xs =>
    rw [hd] at h
    simp at h
    rw [hs, hd, List.cons_append, List.head?_cons, h]

lemma getLast_trimLeft (s : Str) (c : Char) (h : (trimLeft s).getLast? = some c) :
    s.getLast? = some c := by
  obtain ⟨t, ht⟩ := List.dropWhile_suffix (l := s) isWsChar
  have hs : s = t ++ trimLeft s := ht.symm
  cases hd : trimLeft s with
  | nil => rw [hd] at h; simp at h
  | cons x xs =>
    rw [hs, hd]
    rw [hd] at h
    rw [List.getLast?_append_of_ne_nil]
    · exact h
    · simp

lemma head_trimLeft_not_ws (s : Str) : ∀ c ∈ (trimLeft s).head?, isWsChar c = false :=
  fun c hc => head_dropWhile_not isWsChar s c hc

lemma getLast_trimRight_not_ws (s : Str) :
    ∀ c ∈ (trimRight s).getLast?, isWsChar c = false := by
  intro c hc
  rw [trimRight, List.getLast?_reverse] at hc
  exact head_dropWhile_not isWsChar s.reverse c hc

lemma jsTrim_idem (s : Str) : jsTrim (jsTrim s) = jsTrim s := by
  apply (jsTrim_eq_self_iff _).mpr
  constructor
  · intro c hc
    have := head_trimRight (trimLeft s) c hc
    exact head_trimLeft_not_ws s c this
  · intro c hc
    exact getLast_trimRight_not_ws (trimLeft s) c hc

lemma jsTrim_of_extract (f : RawFile) (s : Str) (h : extractTextFromHtml f = s) :
    jsTrim s = s := by
  rw [← h]
  rw [extractTextFromHtml]
  exact jsTrim_idem _

/-! ### Facts about line splitting and joining -/

lemma splitLines_ne_nil (s : Str) : splitLines s ≠ [] := by
  induction s with
  | nil => simp [splitLines]
  | cons c cs ih =>
    rw [splitLines]
    by_cases h : c == '\n'
    · simp [h]
    · simp only [h, if_false]
      cases hs : splitLines cs with
      | nil => simp
      | cons l ls => simp

lemma mem_splitLines_no_newline (s : Str) (l : Str) (h : l ∈ splitLines s) :
    '\n' ∉ l := by
  induction s generalizing l with
  | nil =>
    simp [splitLines] at h
    simp [h]
  | cons c cs ih =>
    rw [splitLines] at h
    by_cases hc : c == '\n'
    · simp only [hc, if_true, List.mem_cons] at h
      rcases h with h | h
      · simp [h]
      · exact ih l h
    · simp only [hc, if_false] at h
      cases hs : splitLines cs with
      | nil => exact absurd hs (splitLines_ne_nil cs)
      | cons l0 ls =>
        rw [hs] at h
        rcases List.mem_cons.mp h with h | h
        · subst h
          intro hmem
          rcases List.mem_cons.mp hmem with h | h
          · rw [h] at hc
            simp at hc
          · exact ih l0 (hs ▸ List.mem_cons_self l0 ls) h
        · exact ih l (hs ▸ List.mem_cons_of_mem l0 h)

lemma splitLines_no_newline (s : Str) (h : '\n' ∉ s) : splitLines s = [s] := by
  induction s with
  | nil => rfl
  | cons c cs ih =>
    have hc : ¬(c == '\n') := by
      intro hcc
      exact h (by simp at hcc; simp [hcc])
    have hcs : '\n' ∉ cs := fun hm => h (List.mem_cons_of_mem c hm)
    rw [splitLines, if_neg hc, ih hcs]

lemma splitLines_append_cons (x y : Str) (h : '\n' ∉ x) :
    splitLines (x ++ '\n' :: y) = x :: splitLines y := by
  induction x with
  | nil => simp [splitLines]
  | cons c cs ih =>
    have hc : ¬(c == '\n') := by
      intro hcc
      exact h (by simp at hcc; simp [hcc])
    have hcs : '\n' ∉ cs := fun hm => h (List.mem_cons_of_mem c hm)
    rw [List.cons_append, splitLines, if_neg hc, ih hcs]

lemma splitLines_joinLines (L : List Str) (h0 : L ≠ [])
    (h : ∀ l ∈ L, '\n' ∉ l) : splitLines (joinLines L) = L := by
  induction L with
  | nil => exact absurd rfl h0
  | cons l ls ih =>
    cases ls with
    | nil =>
      rw [joinLines]
      exact splitLines_no_newline l (h l (List.mem_cons_self l []))
    | cons l2 ls2 =>
      rw [joinLines, splitLines_append_cons _ _ (h l (List.mem_cons_self l _))]
      rw [ih (by simp) (fun a ha => h a (List.mem_cons_of_mem l ha))]

lemma mem_trimLeft (s : Str) (c : Char) (h : c ∈ trimLeft s) : c ∈ s :=
  (List.dropWhile_sublist _).mem h

lemma mem_trimRight (s : Str) (c : Char) (h : c ∈ trimRight s) : c ∈ s := by
  rw [trimRight, List.mem_reverse] at h
  have := (List.dropWhile_sublist (l := s.reverse) isWsChar).mem h
  rwa [List.mem_reverse] at this

lemma mem_jsTrim (s : Str) (c : Char) (h : c ∈ jsTrim s) : c ∈ s :=
  mem_trimLeft s c (mem_trimRight (trimLeft s) c h)

/-- Line trimming keeps every line free of newlines. -/
lemma no_newline_jsTrim (l : Str) (h : '\n' ∉ l) : '\n' ∉ jsTrim l :=
  fun hm => h (mem_jsTrim l '\n' hm)

/-- Apply a function to the last element of a list. -/
def modLast (f : Str → Str) : List Str → List Str
  | [] => []
  | [a] => [f a]
  | a :: b :: ls => a :: modLast f (b :: ls)

lemma modLast_concat (f : Str → Str) (xs : List Str) (x : Str) :
    modLast f (xs ++ [x]) = xs ++ [f x] := by
  induction xs with
  | nil => rfl
  | cons a as ih =>
    cases as with
    | nil => rfl
    | cons b bs =>
      rw [List.cons_append, List.cons_append]
      rw [show (b :: bs) ++ [x] = (b :: bs) ++ [x] from rfl] at ih
      rw [modLast]
      rw [← List.cons_append]
      rw [ih]
      rfl

lemma splitLines_concat (x : Str) (c : Char) :
    splitLines (x ++ [c]) =
      if c = '\n' then splitLines x ++ [[]]
      else modLast (fun l => l ++ [c]) (splitLines x) := by
  induction x with
  | nil =>
    by_cases h : c = '\n'
    · subst h
      rfl
    · rw [if_neg h, List.nil_append,
        splitLines_no_newline [c] (by simp [eq_comm, h])]
      rfl
  | cons a as ih =>
    rw [List.cons_append, splitLines, splitLines]
    by_cases ha : a == '\n'
    · rw [if_pos ha, if_pos ha, ih]
      by_cases h : c = '\n'
      · rw [if_pos h, if_pos h]
        rfl
      · rw [if_neg h, if_neg h]
        cases hs : splitLines as with
        | nil => exact absurd hs (splitLines_ne_nil as)
        | cons l ls => rfl
    · rw [if_neg ha, if_neg ha, ih]
      by_cases h : c = '\n'
      · rw [if_pos h, if_pos h]
        cases hs : splitLines as with
        | nil => exact absurd hs (splitLines_ne_nil as)
        | cons l ls => rfl
      · rw [if_neg h, if_neg h]
        cases hs : splitLines as with
        | nil => exact absurd hs (splitLines_ne_nil as)
        | cons l ls =>
          cases ls with
          | nil => rfl
          | cons l2 ls2 => rfl

lemma splitLines_reverse (s : Str) :
    splitLines s.reverse = ((splitLines s).reverse).map List.reverse := by
  induction s with
  | nil => rfl
  | cons c cs ih =>
    rw [List.reverse_cons, splitLines_concat, splitLines]
    by_cases h : c == '\n'
    · rw [if_pos (by simpa using h), if_pos h, ih]
      simp
    · rw [if_neg (by simpa using h), if_neg h, ih]
      cases hs : splitLines cs with
      | nil => exact absurd hs (splitLines_ne_nil cs)
      | cons l ls =>
        simp only [List.reverse_cons, List.map_append, List.map_cons, List.map_nil]
        rw [modLast_concat]

/-- Every line of `s` is free of leading and trailing whitespace. -/
def linesTrimmed (s : Str) : Prop := ∀ l ∈ splitLines s, jsTrim l = l

lemma linesTrimmed_trimLeft (s : Str) (h : linesTrimmed s) :
    linesTrimmed (trimLeft s) := by
  induction s with
  | nil => exact h
  | cons c cs ih =>
    by_cases hw : isWsChar c
    · by_cases hc : c = '\n'
      · subst hc
        rw [trimLeft, List.dropWhile_cons, if_pos (by simpa using hw)]
        apply ih
        intro l hl
        apply h
        rw [splitLines, if_pos (by simp)]
        exact List.mem_cons_of_mem [] hl
      · exfalso
        have h1 : jsTrim (splitLines (c :: cs)).head! = (splitLines (c :: cs)).head! := by
          apply h
          cases hs : splitLines (c :: cs) with
          | nil => exact absurd hs (splitLines_ne_nil _)
          | cons l ls => simp
        rw [splitLines, if_neg (by simpa using hc)] at h1
        cases hs : splitLines cs with
        | nil => exact absurd hs (splitLines_ne_nil cs)
        | cons l ls =>
          rw [hs] at h1
          simp only [List.head!_cons] at h1
          have := (jsTrim_eq_self_iff (c :: l)).mp h1
          have hcw := this.1 c (by simp)
          simp [hw] at hcw
    · rw [trimLeft, List.dropWhile_cons, if_neg (by simpa using hw)]
      exact h

lemma jsTrim_reverse_iff (l : Str) : jsTrim l.reverse = l.reverse ↔ jsTrim l = l := by
  rw [jsTrim_eq_self_iff, jsTrim_eq_self_iff, List.head?_reverse, List.getLast?_reverse]
  exact and_comm

lemma linesTrimmed_reverse (s : Str) (h : linesTrimmed s) : linesTrimmed s.reverse := by
  intro l hl
  rw [splitLines_reverse] at hl
  obtain ⟨l0, hl0, rfl⟩ := List.mem_map.mp hl
  rw [List.mem_reverse] at hl0
  exact (jsTrim_reverse_iff l0).mpr (h l0 hl0)

lemma linesTrimmed_trimRight (s : Str) (h : linesTrimmed s) :
    linesTrimmed (trimRight s) := by
  rw [trimRight_def]
  exact linesTrimmed_reverse _ (linesTrimmed_trimLeft _ (linesTrimmed_reverse _ h))

lemma linesTrimmed_jsTrim (s : Str) (h : linesTrimmed s) : linesTrimmed (jsTrim s) :=
  linesTrimmed_trimRight _ (linesTrimmed_trimLeft _ h)

lemma linesTrimmed_join_map_jsTrim (x : Str) :
    linesTrimmed (joinLines ((splitLines x).map jsTrim)) := by
  intro l hl
  rw [splitLines_joinLines] at hl
  · obtain ⟨l0, hl0, rfl⟩ := List.mem_map.mp hl
    exact jsTrim_idem l0
  · simpa using splitLines_ne_nil x
  · intro a ha
    obtain ⟨l0, hl0, rfl⟩ := List.mem_map.mp ha
    exact no_newline_jsTrim l0 (mem_splitLines_no_newline x l0 hl0)

lemma extract_linesTrimmed (f : RawFile) : linesTrimmed (extractTextFromHtml f) := by
  rw [extractTextFromHtml]
  exact linesTrimmed_jsTrim _ (linesTrimmed_join_map_jsTrim _)

/-! ### The substring test -/

lemma headMatches_iff (n h : Str) : headMatches n h = true ↔ ∃ t, h = n ++ t := by
  induction n generalizing h with
  | nil => simp [headMatches]
  | cons a as ih =>
    cases h with
    | nil => simp [headMatches]
    | cons b bs =>
      rw [headMatches]
      simp only [Bool.and_eq_true, beq_iff_eq, ih, List.cons_append, List.cons.injEq]
      constructor
      · rintro ⟨rfl, t, rfl⟩
        exact ⟨t, rfl, rfl⟩
      · rintro ⟨t, rfl, rfl⟩
        exact ⟨rfl, t, rfl⟩

lemma hasSubstr_iff (hay n : Str) :
    hasSubstr hay n = true ↔ ∃ x y, hay = x ++ n ++ y := by
  induction hay with
  | nil =>
    simp only [hasSubstr, List.isEmpty_iff]
    constructor
    · rintro rfl
      exact ⟨[], [], rfl⟩
    · rintro ⟨x, y, hxy⟩
      rcases List.append_eq_nil.mp (List.append_eq_nil.mp hxy.symm).1 with ⟨-, h2⟩
      exact h2
  | cons c t ih =>
    rw [hasSubstr]
    simp only [Bool.or_eq_true, headMatches_iff, ih]
    constructor
    · rintro (⟨tl, htl⟩ | ⟨x, y, rfl⟩)
      · exact ⟨[], tl, by simpa using htl⟩
      · exact ⟨c :: x, y, rfl⟩
    · rintro ⟨x, y, hxy⟩
      cases x with
      | nil =>
        left
        exact ⟨y, by simpa using hxy⟩
      | cons x0 xs =>
        right
        rw [List.cons_append, List.cons_append, List.cons.injEq] at hxy
        exact ⟨xs, y, hxy.2⟩

/-- The spec reads the `properties` attribute as a set of space-separated
tokens (`properties.split(' ')`).  This definition follows that spec wording,
for comparison with the code's substring test `properties.includes('nav')`. -/
def specPropertiesTokens : Str → List Str
  | [] => [[]]
  | c :: cs =>
    if c == ' ' then [] :: specPropertiesTokens cs
    else
      match specPropertiesTokens cs with
      | [] => [[c]]
      | l :: ls => (c :: l) :: ls

/-! ### Progress arithmetic and the main loop's event stream -/

lemma progressPercent_mono (t i j : Nat) (h : i ≤ j) :
    progressPercent i t ≤ progressPercent j t := by
  unfold progressPercent
  apply Nat.add_le_add_left
  apply Nat.div_le_div_right
  omega

lemma progressPercent_le_90 (t i : Nat) (h : i < t) : progressPercent i t ≤ 90 := by
  unfold progressPercent
  have hlt : (120 * i + t) / (2 * t) < 61 := by
    apply Nat.div_lt_of_lt_mul
    omega
  omega

lemma progressPercent_ge_30 (t i : Nat) : 30 ≤ progressPercent i t :=
  Nat.le_add_right 30 _

lemma goSpine_events (z : Zip) (dir : Str) (m : Record) (t : Nat) (ids : List Str) :
    ∀ i, ∃ k, k ≤ ids.length ∧
      (goSpine z dir m t ids i).1.map (fun e => e.1) =
        (List.range' i k).map (fun j => progressPercent j t) := by
  induction ids with
  | nil => exact fun i => ⟨0, by simp, by simp [goSpine]⟩
  | cons id rest ih =>
    intro i
    obtain ⟨k, hk, he⟩ := ih (i + 1)
    rcases hpi : processItem z dir m i id with ⟨logs, r⟩
    cases r with
    | error e =>
      refine ⟨1, by simp, ?_⟩
      simp [goSpine, hpi, List.range']
    | ok chunk =>
      refine ⟨k + 1, by simpa using hk, ?_⟩
      simp only [goSpine, hpi, List.range'_succ, List.map_cons]
      simpa using he

lemma chain_progress_range (t i k : Nat) :
    List.Chain' (· ≤ ·) ((List.range' i k).map (fun j => progressPercent j t)) := by
  apply List.Pairwise.chain'
  apply List.Pairwise.map (fun j => progressPercent j t)
    (fun a b hab => progressPercent_mono t a b (Nat.le_of_lt hab))
  exact List.pairwise_lt_range' i k

lemma mem_range_map_bounds (t i k : Nat) (hik : i + k ≤ t) (x : Nat)
    (hx : x ∈ (List.range' i k).map (fun j => progressPercent j t)) :
    30 ≤ x ∧ x ≤ 90 := by
  obtain ⟨j, hj, rfl⟩ := List.mem_map.mp hx
  have := List.mem_range'_1.mp hj
  exact ⟨progressPercent_ge_30 t j, progressPercent_le_90 t j (by omega)⟩

/-! ### Shape of a successful conversion -/

lemma isEmpty_false_of_ne_nil (l : Str) (h : l ≠ []) : l.isEmpty = false := by
  cases l with
  | nil => exact absurd rfl h
  | cons a t => rfl

lemma convert_ok_of_parse (z : Zip) (nm : Str) (cf : RawFile) (rfn : XNode)
    (fp : Str) (opfF : RawFile) (evs : List (Nat × Str)) (lgs : List Str) (ft : Str)
    (h1 : zipFile z ("META-INF/container.xml".data) = some cf)
    (h2 : findTag (parseAsXml cf) ("rootfile".data) = some rfn)
    (h3 : nodeAttr rfn ("full-path".data) = some fp)
    (h4 : fp ≠ [])
    (h5 : zipFile z fp = some opfF)
    (h6 : goSpine z (dirOf fp) (buildManifest (parseAsXml opfF))
        (buildSpine (parseAsXml opfF) (buildManifest (parseAsXml opfF))).length
        (buildSpine (parseAsXml opfF) (buildManifest (parseAsXml opfF))) 0 =
      (evs, lgs, Except.ok ft)) :
    convertEpubToText z nm =
      ((10, "Unzipping file...".data) :: (20, "Reading metadata...".data) ::
          evs ++ [(100, "Finalizing...".data)], lgs,
        Except.ok
          { filename := nm,
            title := metaField (parseAsXml opfF) ("title".data) ("Untitled".data),
            author :=
              metaField (parseAsXml opfF) ("creator".data) ("Unknown Author".data),
            content := jsTrim ft, size := ft.length }) := by
  rw [convertEpubToText, h1]
  simp only [h2, h3, Option.getD_some, isEmpty_false_of_ne_nil fp h4,
    Bool.false_eq_true, if_false, h5, h6]

lemma convert_ok_shape (z : Zip) (nm : Str) (b : ProcessedBook)
    (h : (convertEpubToText z nm).2.2 = Except.ok b) :
    ∃ dir m ids evs lgs ft,
      goSpine z dir m ids.length ids 0 = (evs, lgs, Except.ok ft) ∧
      convertEpubToText z nm =
        ((10, "Unzipping file...".data) :: (20, "Reading metadata...".data) ::
            evs ++ [(100, "Finalizing...".data)], lgs, Except.ok b) ∧
      b.content = jsTrim ft ∧ b.size = ft.length := by
  rcases hz1 : zipFile z ("META-INF/container.xml".data) with _ | cf
  · rw [convertEpubToText, hz1] at h
    simp at h
  · rcases hz2 : findTag (parseAsXml cf) ("rootfile".data) with _ | rfn
    · rw [convertEpubToText, hz1] at h
      simp [hz2] at h
    · rcases hz3 : nodeAttr rfn ("full-path".data) with _ | fp
      · rw [convertEpubToText, hz1] at h
        simp [hz2, hz3] at h
      · by_cases hfp : fp.isEmpty = true
        · rw [convertEpubToText, hz1] at h
          simp [hz2, hz3, hfp] at h
        · have hfp2 : fp.isEmpty = false := by simpa using hfp
          have h4 : fp ≠ [] := by
            intro hh
            subst hh
            simp at hfp2
          rcases hz5 : zipFile z fp with _ | opfF
          · rw [convertEpubToText, hz1] at h
            simp [hz2, hz3, hfp2, hz5] at h
          · rcases hgo : goSpine z (dirOf fp) (buildManifest (parseAsXml opfF))
                (buildSpine (parseAsXml opfF) (buildManifest (parseAsXml opfF))).length
                (buildSpine (parseAsXml opfF) (buildManifest (parseAsXml opfF))) 0
              with ⟨evs, lgs, r⟩
            cases r with
            | error e =>
              rw [convertEpubToText, hz1] at h
              simp [hz2, hz3, hfp2, hz5, hgo] at h
            | ok ft =>
              have hc := convert_ok_of_parse z nm cf rfn fp opfF evs lgs ft
                hz1 hz2 hz3 h4 hz5 hgo
              rw [hc] at h
              simp only [Except.ok.injEq] at h
              refine ⟨dirOf fp, buildManifest (parseAsXml opfF),
                buildSpine (parseAsXml opfF) (buildManifest (parseAsXml opfF)),
                evs, lgs, ft, hgo, ?_, ?_, ?_⟩
              · rw [hc, h]
              · rw [← h]
              · rw [← h]

/-! ### Per-item behaviour of the main loop -/

/-- The spine item at position `i` contributes nothing to the aggregate: it is
skipped by the classifier, or its resolved path decodes but is absent from the
archive, or its converted text is blank.  (The defensive `none` branch of the
manifest lookup cannot fire for entries produced by `buildSpine`.) -/
def itemVanishes (z : Zip) (dir : Str) (m : Record) (i : Nat) (idref : Str) : Bool :=
  match recordGet m idref with
  | none => true
  | some item =>
    rule1Skips item.properties || rule2Skips i item ||
      (match decodeURIComponent (dir ++ item.href) with
       | none => false
       | some p =>
         match zipFile z p with
         | none => true
         | some f => (jsTrim (extractTextFromHtml f)).isEmpty)

/-- The spine item at position `i` cannot throw: it is skipped by the
classifier before path resolution, or its resolved path percent-decodes
successfully. -/
def itemDecodes (dir : Str) (m : Record) (i : Nat) (idref : Str) : Bool :=
  match recordGet m idref with
  | none => true
  | some item =>
    rule1Skips item.properties || rule2Skips i item ||
      (decodeURIComponent (dir ++ item.href)).isSome

lemma processItem_vanish (z : Zip) (dir : Str) (m : Record) (i : Nat) (idref : Str)
    (h : itemVanishes z dir m i idref = true) :
    (processItem z dir m i idref).2 = Except.ok [] := by
  rw [itemVanishes] at h
  rw [processItem]
  rcases hrec : recordGet m idref with _ | item
  · simp only [hrec]
  · simp only [hrec] at h ⊢
    by_cases h1 : rule1Skips item.properties = true
    · rw [if_pos h1]
    · have h1f : rule1Skips item.properties = false := by simpa using h1
      rw [if_neg (by simp [h1f])]
      rw [h1f, Bool.false_or] at h
      by_cases h2 : rule2Skips i item = true
      · rw [if_pos h2]
      · have h2f : rule2Skips i item = false := by simpa using h2
        rw [if_neg (by simp [h2f])]
        rw [h2f, Bool.false_or] at h
        rcases hdec : decodeURIComponent (dir ++ item.href) with _ | p
        · rw [hdec] at h
          simp at h
        · simp only [hdec] at h ⊢
          rcases hzf : zipFile z p with _ | f
          · simp only [hzf]
          · simp only [hzf] at h ⊢
            have hlen : (jsTrim (extractTextFromHtml f)).length = 0 := by
              simpa [List.isEmpty_iff, List.length_eq_zero] using h
            rw [if_neg (by omega)]

lemma processItem_no_throw (z : Zip) (dir : Str) (m : Record) (i : Nat)
    (idref : Str) (h : itemDecodes dir m i idref = true) :
    ∃ lg ck, processItem z dir m i idref = (lg, Except.ok ck) := by
  rw [itemDecodes] at h
  rw [processItem]
  rcases hrec : recordGet m idref with _ | item
  · simp only [hrec]
    exact ⟨[], [], rfl⟩
  · simp only [hrec] at h ⊢
    by_cases h1 : rule1Skips item.properties = true
    · rw [if_pos h1]
      exact ⟨_, _, rfl⟩
    · have h1f : rule1Skips item.properties = false := by simpa using h1
      rw [if_neg (by simp [h1f])]
      rw [h1f, Bool.false_or] at h
      by_cases h2 : rule2Skips i item = true
      · rw [if_pos h2]
        exact ⟨_, _, rfl⟩
      · have h2f : rule2Skips i item = false := by simpa using h2
        rw [if_neg (by simp [h2f])]
        rw [h2f, Bool.false_or] at h
        rcases hdec : decodeURIComponent (dir ++ item.href) with _ | p
        · rw [hdec] at h
          simp at h
        · simp only [hdec]
          rcases hzf : zipFile z p with _ | f
          · simp only [hzf]
            exact ⟨_, _, rfl⟩
          · simp only [hzf]
            by_cases hl : 0 < (jsTrim (extractTextFromHtml f)).length
            · rw [if_pos hl]
              exact ⟨_, _, rfl⟩
            · rw [if_neg hl]
              exact ⟨_, _, rfl⟩

lemma goSpine_vanish (z : Zip) (dir : Str) (m : Record) (t : Nat) :
    ∀ (ids : List Str) (start : Nat),
      (∀ j (hj : j < ids.length),
        itemVanishes z dir m (start + j) (ids.get ⟨j, hj⟩) = true) →
      (goSpine z dir m t ids start).2.2 = Except.ok [] := by
  intro ids
  induction ids with
  | nil => intro start _; rfl
  | cons id rest ih =>
    intro start hv
    have h0 : itemVanishes z dir m start id = true := hv 0 (by simp)
    have hok := processItem_vanish z dir m start id h0
    rcases hpi : processItem z dir m start id with ⟨logs, r⟩
    rw [hpi] at hok
    simp only at hok
    subst hok
    have hrest := ih (start + 1) (fun j hj => by
      have := hv (j + 1) (by simpa using Nat.succ_lt_succ hj)
      rwa [show start + (j + 1) = start + 1 + j by omega] at this)
    simp only [goSpine, hpi]
    simp [hrest, Except.map]

lemma goSpine_no_throw (z : Zip) (dir : Str) (m : Record) (t : Nat) :
    ∀ (ids : List Str) (start : Nat),
      (∀ j (hj : j < ids.length),
        itemDecodes dir m (start + j) (ids.get ⟨j, hj⟩) = true) →
      ∃ txt, (goSpine z dir m t ids start).2.2 = Except.ok txt := by
  intro ids
  induction ids with
  | nil => exact fun start _ => ⟨[], rfl⟩
  | cons id rest ih =>
    intro start hv
    have h0 : itemDecodes dir m start id = true := hv 0 (by simp)
    obtain ⟨lg, ck, hpi⟩ := processItem_no_throw z dir m start id h0
    obtain ⟨txt, htxt⟩ := ih (start + 1) (fun j hj => by
      have := hv (j + 1) (by simpa using Nat.succ_lt_succ hj)
      rwa [show start + (j + 1) = start + 1 + j by omega] at this)
    refine ⟨ck ++ txt, ?_⟩
    simp only [goSpine, hpi]
    simp [htxt, Except.map]

/-! ### Trimming around the chapter separator -/

lemma trimRight_sep (x : Str) : trimRight (x ++ sepStr) = x ++ sepTrimmed := by
  rw [trimRight, List.reverse_append]
  have hrev : sepStr.reverse = '\n' :: '\n' :: sepTrimmed.reverse := by decide
  rw [hrev, List.cons_append, List.cons_append,
    List.dropWhile_cons, if_pos (by decide), List.dropWhile_cons, if_pos (by decide)]
  have h3 : sepTrimmed.reverse =
      '-' :: ("\n\n-----------------------------------------------".data).reverse := by
    decide
  rw [h3, List.cons_append, List.dropWhile_cons, if_neg (by decide),
    ← List.cons_append, ← h3, List.reverse_append, List.reverse_reverse,
    List.reverse_reverse]

lemma trimLeft_append_left (x y : Str) (hx : jsTrim x = x) (h0 : x ≠ []) :
    trimLeft (x ++ y) = x ++ y := by
  obtain ⟨hhead, -⟩ := (jsTrim_eq_self_iff x).mp hx
  cases x with
  | nil => exact absurd rfl h0
  | cons a as =>
    have ha : isWsChar a = false := hhead a (by simp)
    rw [List.cons_append, trimLeft, List.dropWhile_cons, if_neg (by simp [ha])]

lemma jsTrim_two_chapters (a b : Str) (ha : jsTrim a = a) (ha0 : a ≠ []) :
    jsTrim (a ++ sepStr ++ (b ++ sepStr)) = a ++ sepStr ++ b ++ sepTrimmed := by
  rw [jsTrim]
  rw [show a ++ sepStr ++ (b ++ sepStr) = a ++ (sepStr ++ (b ++ sepStr)) by
    simp [List.append_assoc]]
  rw [trimLeft_append_left a _ ha ha0]
  rw [show a ++ (sepStr ++ (b ++ sepStr)) = (a ++ sepStr ++ b) ++ sepStr by
    simp [List.append_assoc]]
  rw [trimRight_sep]

/-- One loop iteration on an item that is retained, resolved, found, and
non-blank: the chunk is the chapter text followed by the separator. -/
lemma processItem_chapter (z : Zip) (dir : Str) (m : Record) (i : Nat) (id : Str)
    (item : EpubManifestItem) (p : Str) (f : RawFile) (t : Str)
    (hrec : recordGet m id = some item)
    (h1 : rule1Skips item.properties = false)
    (h2 : rule2Skips i item = false)
    (hdec : decodeURIComponent (dir ++ item.href) = some p)
    (hzf : zipFile z p = some f)
    (hex : extractTextFromHtml f = t)
    (ht : jsTrim t = t) (ht0 : t ≠ []) :
    processItem z dir m i id = ([], Except.ok (t ++ sepStr)) := by
  rw [processItem]
  simp only [hrec, h1, Bool.false_eq_true, if_false, h2, hdec, hzf, hex, ht]
  rw [if_pos (List.length_pos.mpr ht0)]

/-! ### The claims -/

/-- The book produced from `zipOne`. -/
def bookOne : ProcessedBook :=
  { filename := "book.epub".data, title := "My Title".data,
    author := "An Author".data,
    content := "A\n\n------------------------------------------------".data,
    size := 53 }

/-- The book produced from `zipNavOnly`. -/
def bookNav : ProcessedBook :=
  { filename := "book.epub".data, title := "My Title".data,
    author := "An Author".data, content := [], size := 0 }

/-- The book produced from `zipGarbageOpf`. -/
def bookGarbage : ProcessedBook :=
  { filename := "book.epub".data, title := "Untitled".data,
    author := "Unknown Author".data, content := [], size := 0 }

/-- Claim C1, counterexample: For the two-chapter archive with chapter texts
`"A"` and `"B"`, the returned content is `"A" ++ separator ++ "B" ++ the
separator's blank-plus-dash line`, which differs from the claimed
`"A" ++ separator ++ "B"`: a separator also follows the last chapter, and the
final trim removes only its trailing blank lines. -/
theorem c1_counterexample :
    Except.map (fun bk => bk.content)
        ((convertEpubToText (zipTwo ("A".data) ("B".data)) ("book.epub".data)).2.2) =
      Except.ok ("A".data ++ sepStr ++ "B".data ++ sepTrimmed) ∧
      ("A".data ++ sepStr ++ "B".data ++ sepTrimmed) ≠
        ("A".data ++ sepStr ++ "B".data) :=
  ⟨by decide, by decide⟩

/-- Claim C2, counterexample: On a body `<ul><li>One</li><li>Two</li></ul>` the
converter returns `"• One• Two"`, not the claimed `"• One\n• Two"`: the `li`
branch of the block table sets only the bullet prefix, so no newline suffix is
emitted. -/
theorem c2_counterexample :
    extractTextFromHtml ulDoc = ("• One• Two".data) ∧
      ("• One• Two".data) ≠ ("• One\n• Two".data) :=
  ⟨by decide, by decide⟩

/-- Claim C2, amended: A list-item element contributes the bullet prefix `"• "`
and no suffix at all (its branch of the block table sets only the prefix, so
the generic one-newline suffix does not apply); consequently the ul/li body
converts to `"• One• Two"`. -/
theorem c2_amended :
    (∀ (attrs : List (Str × Str)) (ch : List XNode),
      walk (XNode.elem ("li".data) attrs ch) = "• ".data ++ walkList ch) ∧
      extractTextFromHtml ulDoc = ("• One• Two".data) := by
  constructor
  · intro attrs ch
    have h : walk (XNode.elem ("li".data) attrs ch) =
        "• ".data ++ walkList ch ++ [] := rfl
    rw [h, List.append_nil]
  · decide

/-- Claim C3, counterexample: For the one-chapter archive the returned book has
`size = 53` (the length of the aggregate including the trailing separator and
blank lines) but `content` of length 51, so `size` is not the length of
`content`. -/
theorem c3_counterexample :
    (convertEpubToText zipOne ("book.epub".data)).2.2 = Except.ok bookOne ∧
      bookOne.size ≠ bookOne.content.length :=
  ⟨by decide, by decide⟩

/-- Claim C4, counterexample: An archive whose OPF entry exists but is not
well-formed XML does not fail: the XML parser yields an error document, every
query on it is empty, and the conversion returns a ProcessedBook with default
metadata and empty content. -/
theorem c4_counterexample :
    zipFile zipGarbageOpf opfPath = some (RawFile.notXml garbageDoc) ∧
      (convertEpubToText zipGarbageOpf ("book.epub".data)).2.2 =
        Except.ok bookGarbage :=
  ⟨rfl, by decide⟩

/-- Claim C5, counterexample: On a body `<p>a</p> <br/><p>b</p>` the converter
returns `"a\n\n\nb"`, which contains a run of three consecutive newlines:
trimming the whitespace-only line re-creates a long newline run after the
collapse step has already happened. -/
theorem c5_counterexample :
    extractTextFromHtml runDoc = ("a\n\n\nb".data) ∧
      hasSubstr ("a\n\n\nb".data) ("\n\n\n".data) = true :=
  ⟨by decide, by decide⟩

/-- Claim C5, amended: Every line of the converter's output is free of leading
and trailing whitespace (runs of three or more newlines, however, can survive,
as the counterexample shows). -/
theorem c5_amended (f : RawFile) (l : Str)
    (hl : l ∈ splitLines (extractTextFromHtml f)) : jsTrim l = l :=
  extract_linesTrimmed f l hl

/-- Witness for `c5_amended` at the concrete document `runDoc`. -/
theorem c5_witness :
    ("a".data) ∈ splitLines (extractTextFromHtml runDoc) ∧
      jsTrim ("a".data) = ("a".data) :=
  ⟨by decide, c5_amended runDoc ("a".data) (by decide)⟩

/-- Claim C6, counterexample: An item whose `properties` attribute is
`"navigation"` is skipped by rule 1 even though its token set
`{"navigation"}` does not contain the token `"nav"`: the code tests substring
containment, not token membership. -/
theorem c6_counterexample :
    rule1Skips ("navigation".data) = true ∧
      ¬ (("nav".data) ∈ specPropertiesTokens ("navigation".data)) :=
  ⟨by decide, by decide⟩

/-- Claim C6, amended: Rule 1 skips an item exactly when its `properties`
string contains `"nav"` as a substring (at any position, also inside a longer
token); the non-emptiness guard is subsumed by the decomposition. -/
theorem c6_amended (props : Str) :
    rule1Skips props = true ↔ ∃ x y, props = x ++ ("nav".data) ++ y := by
  rw [rule1Skips, Bool.and_eq_true, hasSubstr_iff]
  constructor
  · exact fun h => h.2
  · rintro ⟨x, y, rfl⟩
    refine ⟨?_, x, y, rfl⟩
    simp

/-- Claim C9: Every identifier retained by the spine filter is non-empty and
present in the manifest map, and the retained sequence is a sublist (in
document order) of the raw `spine > itemref` reference sequence; dropping is
silent because the filter is total. -/
theorem c9_theorem (opfDoc : XNode) (m : Record) :
    (∀ id ∈ buildSpine opfDoc m, id ≠ [] ∧ (recordGet m id).isSome = true) ∧
      List.Sublist (buildSpine opfDoc m)
        ((childSelAll opfDoc ("spine".data) ("itemref".data)).map
          (fun n => (nodeAttr n ("idref".data)).getD [])) := by
  constructor
  · intro id hid
    rw [buildSpine, List.mem_filter] at hid
    obtain ⟨-, hcond⟩ := hid
    simp only [Bool.and_eq_true] at hcond
    refine ⟨?_, hcond.2⟩
    intro hnil
    subst hnil
    simp at hcond
  · rw [buildSpine]
    exact List.filter_sublist _

/-- Witness for `c9_theorem` at the two-chapter OPF. -/
theorem c9_witness :
    (∀ id ∈ buildSpine opfTwoDoc (buildManifest opfTwoDoc),
      id ≠ [] ∧ (recordGet (buildManifest opfTwoDoc) id).isSome = true) ∧
      List.Sublist (buildSpine opfTwoDoc (buildManifest opfTwoDoc))
        ((childSelAll opfTwoDoc ("spine".data) ("itemref".data)).map
          (fun n => (nodeAttr n ("idref".data)).getD [])) :=
  c9_theorem opfTwoDoc (buildManifest opfTwoDoc)

/-- Claim C3, amended: For every successful conversion the returned size is the
character length of the pre-trim aggregate, of which the content is the
trimmed form; hence the content length never exceeds the size (and equals it
only when the aggregate needed no trimming, e.g. when no chapter
contributed). -/
theorem c3_amended (z : Zip) (nm : Str) (b : ProcessedBook)
    (h : (convertEpubToText z nm).2.2 = Except.ok b) :
    ∃ aggregate, b.content = jsTrim aggregate ∧ b.size = aggregate.length ∧
      b.content.length ≤ b.size := by
  obtain ⟨dir, m, ids, evs, lgs, ft, hgo, hcv, hct, hsz⟩ := convert_ok_shape z nm b h
  refine ⟨ft, hct, hsz, ?_⟩
  rw [hct, hsz]
  exact length_jsTrim_le ft

/-- Witness for `c3_amended` at the one-chapter archive. -/
theorem c3_witness :
    ∃ aggregate, bookOne.content = jsTrim aggregate ∧
      bookOne.size = aggregate.length ∧ bookOne.content.length ≤ bookOne.size :=
  c3_amended zipOne ("book.epub".data) bookOne (by decide)

/-- Claim C7, counterexample: A malformed percent escape in a spine item's
resolved path aborts the whole conversion with `URIError: URI malformed` —
a per-item failure that is not handled locally.  The progress trace stops at
the first loop checkpoint; the healthy second chapter is never reached. -/
theorem c7_counterexample :
    (convertEpubToText zipBadEscape ("book.epub".data)).2.2 =
        Except.error ("URIError: URI malformed".data) ∧
      (convertEpubToText zipBadEscape ("book.epub".data)).1.map (fun e => e.1) =
        [10, 20, 30] :=
  ⟨by decide, by decide⟩

/-- Claim C7, amended: If every spine item is either skipped by the classifier
or percent-decodes successfully, the main loop always runs to completion: a
missing archive entry or blank text only makes the item contribute nothing
(it is skipped with a diagnostic), never aborting the loop.  Only a
percent-decoding failure can abort. -/
theorem c7_amended (z : Zip) (dir : Str) (m : Record) (t : Nat) (ids : List Str)
    (start : Nat)
    (hv : ∀ j (hj : j < ids.length),
      itemDecodes dir m (start + j) (ids.get ⟨j, hj⟩) = true) :
    ∃ txt, (goSpine z dir m t ids start).2.2 = Except.ok txt :=
  goSpine_no_throw z dir m t ids start hv

/-- Witness for `c7_amended` at the archive whose only chapter file is
missing from the archive. -/
theorem c7_witness :
    (∀ j (hj : j < ([("c1".data)] : List Str).length),
      itemDecodes ("OEBPS/".data) (buildManifest opfMissingDoc) (0 + j)
        (([("c1".data)] : List Str).get ⟨j, hj⟩) = true) ∧
      ∃ txt, (goSpine zipMissingChapter ("OEBPS/".data)
          (buildManifest opfMissingDoc) 1 [("c1".data)] 0).2.2 = Except.ok txt :=
  ⟨by decide,
    c7_amended zipMissingChapter ("OEBPS/".data) (buildManifest opfMissingDoc) 1
      [("c1".data)] 0 (by decide)⟩

/-- Claim C4, amended: If the container resolves to an OPF path, then: a
missing OPF entry throws (aborting with the `OPF file ... missing` error and
no book); but an OPF entry whose text is not well-formed XML does not throw —
the parser returns an error document, every query on it is empty, and the
conversion returns a ProcessedBook with default metadata and empty content. -/
theorem c4_amended (z : Zip) (nm : Str) (cf : RawFile) (rfn : XNode) (fp : Str)
    (h1 : zipFile z ("META-INF/container.xml".data) = some cf)
    (h2 : findTag (parseAsXml cf) ("rootfile".data) = some rfn)
    (h3 : nodeAttr rfn ("full-path".data) = some fp)
    (h4 : fp ≠ []) :
    (zipFile z fp = none →
      (convertEpubToText z nm).2.2 =
        Except.error ("Invalid EPUB: OPF file ".data ++ fp ++ " missing".data)) ∧
    (∀ d, zipFile z fp = some (RawFile.notXml d) →
      (convertEpubToText z nm).2.2 =
        Except.ok
          { filename := nm, title := "Untitled".data,
            author := "Unknown Author".data, content := [], size := 0 }) := by
  constructor
  · intro hnone
    rw [convertEpubToText, h1]
    simp only [h2, h3, Option.getD_some, isEmpty_false_of_ne_nil fp h4,
      Bool.false_eq_true, if_false, hnone]
  · intro d hsome
    rw [convertEpubToText, h1]
    simp only [h2, h3, Option.getD_some, isEmpty_false_of_ne_nil fp h4,
      Bool.false_eq_true, if_false, hsome]
    rfl

/-- Witness for `c4_amended` at the garbage-OPF archive. -/
theorem c4_witness :
    (zipFile zipGarbageOpf opfPath = none →
      (convertEpubToText zipGarbageOpf ("book.epub".data)).2.2 =
        Except.error ("Invalid EPUB: OPF file ".data ++ opfPath ++ " missing".data)) ∧
    (∀ d, zipFile zipGarbageOpf opfPath = some (RawFile.notXml d) →
      (convertEpubToText zipGarbageOpf ("book.epub".data)).2.2 =
        Except.ok
          { filename := "book.epub".data, title := "Untitled".data,
            author := "Unknown Author".data, content := [], size := 0 }) :=
  c4_amended zipGarbageOpf ("book.epub".data) containerFile rootfileNode opfPath
    rfl rfl rfl (by decide)

/-- Chained lower bounds for the event percentages up to the loop. -/
lemma chain_head_progress (t k : Nat) (hk : k ≤ t) :
    List.Chain' (· ≤ ·)
      (10 :: 20 :: (List.range' 0 k).map (fun j => progressPercent j t)) := by
  rw [List.chain'_cons]
  refine ⟨by omega, ?_⟩
  rw [List.chain'_cons']
  refine ⟨?_, chain_progress_range t 0 k⟩
  intro x hx
  rcases hk0 : k with _ | k1
  · subst hk0
    simp [List.range'] at hx
  · subst hk0
    rw [List.range'_succ, List.map_cons] at hx
    simp at hx
    have := progressPercent_ge_30 t 0
    omega

/-- Chain for the full success-path percentage list, ending in 100. -/
lemma chain_full_progress (t k : Nat) (hk : k ≤ t) :
    List.Chain' (· ≤ ·)
      ((10 :: 20 :: (List.range' 0 k).map (fun j => progressPercent j t)) ++
        [100]) := by
  rw [List.chain'_append]
  refine ⟨chain_head_progress t k hk, by simp, ?_⟩
  intro x hx y hy
  simp at hy
  subst hy
  have hmem := List.mem_of_mem_getLast? hx
  rcases List.mem_cons.mp hmem with h10 | hmem2
  · omega
  · rcases List.mem_cons.mp hmem2 with h20 | hmemP
    · omega
    · have := mem_range_map_bounds t 0 k (by omega) x hmemP
      omega

/-- Every conversion, aborted or completed, reports one of four percentage
traces: `[10]` (container stage threw), `[10, 20]` (OPF missing), the loop
prefix without the final 100 (the loop threw), or the full success trace
ending in 100. -/
lemma convert_events_cases (z : Zip) (nm : Str) :
    (convertEpubToText z nm).1.map (fun e => e.1) = [10] ∨
    (convertEpubToText z nm).1.map (fun e => e.1) = [10, 20] ∨
    (∃ t k, k ≤ t ∧
      ((convertEpubToText z nm).1.map (fun e => e.1) =
          10 :: 20 :: (List.range' 0 k).map (fun j => progressPercent j t) ∨
        (convertEpubToText z nm).1.map (fun e => e.1) =
          (10 :: 20 :: (List.range' 0 k).map (fun j => progressPercent j t)) ++
            [100])) := by
  rcases hz1 : zipFile z ("META-INF/container.xml".data) with _ | cf
  · left
    rw [convertEpubToText, hz1]
    rfl
  · rcases hz2 : findTag (parseAsXml cf) ("rootfile".data) with _ | rfn
    · left
      rw [convertEpubToText, hz1]
      simp [hz2]
    · rcases hz3 : nodeAttr rfn ("full-path".data) with _ | fp
      · left
        rw [convertEpubToText, hz1]
        simp [hz2, hz3]
      · by_cases hfp : fp.isEmpty = true
        · left
          rw [convertEpubToText, hz1]
          simp [hz2, hz3, hfp]
        · have hfp2 : fp.isEmpty = false := by simpa using hfp
          have h4 : fp ≠ [] := by
            intro hh
            subst hh
            simp at hfp2
          rcases hz5 : zipFile z fp with _ | opfF
          · right
            left
            rw [convertEpubToText, hz1]
            simp [hz2, hz3, hfp2, hz5]
          · obtain ⟨k, hk, he⟩ := goSpine_events z (dirOf fp)
              (buildManifest (parseAsXml opfF))
              (buildSpine (parseAsXml opfF) (buildManifest (parseAsXml opfF))).length
              (buildSpine (parseAsXml opfF) (buildManifest (parseAsXml opfF))) 0
            rcases hgo : goSpine z (dirOf fp) (buildManifest (parseAsXml opfF))
                (buildSpine (parseAsXml opfF)
                  (buildManifest (parseAsXml opfF))).length
                (buildSpine (parseAsXml opfF) (buildManifest (parseAsXml opfF))) 0
              with ⟨evs, lgs, r⟩
            rw [hgo] at he
            simp only at he
            cases r with
            | error e =>
              right
              right
              refine ⟨(buildSpine (parseAsXml opfF)
                (buildManifest (parseAsXml opfF))).length, k, hk, Or.inl ?_⟩
              rw [convertEpubToText, hz1]
              simp only [hz2, hz3, Option.getD_some, isEmpty_false_of_ne_nil fp h4,
                Bool.false_eq_true, if_false, hz5, hgo]
              simp [he]
            | ok ft =>
              right
              right
              refine ⟨(buildSpine (parseAsXml opfF)
                (buildManifest (parseAsXml opfF))).length, k, hk, Or.inr ?_⟩
              rw [convert_ok_of_parse z nm cf rfn fp opfF evs lgs ft
                hz1 hz2 hz3 h4 hz5 hgo]
              simp [he]

/-- Claim C8, counterexample: a conversion can end with a final reported
percentage other than 100: the malformed-escape archive aborts during the
loop, its trace is `[10, 20, 30]`, and the last report is 30. -/
theorem c8_counterexample :
    (convertEpubToText zipBadEscape ("book.epub".data)).1.map (fun e => e.1) =
        [10, 20, 30] ∧
      ((convertEpubToText zipBadEscape ("book.epub".data)).1.map
          (fun e => e.1)).getLast? ≠ some 100 :=
  ⟨by decide, by decide⟩

/-- Claim C8, amended: for every conversion — aborted or completed — the
reported percentages never decrease; and whenever the conversion returns a
book, the final report is exactly 100 (an aborted conversion instead stops at
the checkpoint before the throw). -/
theorem c8_theorem (z : Zip) (nm : Str) :
    List.Chain' (· ≤ ·) ((convertEpubToText z nm).1.map (fun e => e.1)) ∧
      (∀ b, (convertEpubToText z nm).2.2 = Except.ok b →
        ((convertEpubToText z nm).1.map (fun e => e.1)).getLast? = some 100) := by
  constructor
  · rcases convert_events_cases z nm with h | h | ⟨t, k, hk, h | h⟩
    · rw [h]
      simp
    · rw [h]
      simp
    · rw [h]
      exact chain_head_progress t k hk
    · rw [h]
      exact chain_full_progress t k hk
  · intro b hb
    obtain ⟨dir, m, ids, evs, lgs, ft, hgo, hcv, -, -⟩ := convert_ok_shape z nm b hb
    rw [hcv]
    simp only [List.map_cons, List.map_append, List.map_nil]
    exact List.getLast?_concat _

/-- Witness for `c8_theorem` at the navigation-only archive. -/
theorem c8_witness :
    List.Chain' (· ≤ ·)
        ((convertEpubToText zipNavOnly ("book.epub".data)).1.map (fun e => e.1)) ∧
      ((convertEpubToText zipNavOnly ("book.epub".data)).1.map
        (fun e => e.1)).getLast? = some 100 :=
  ⟨(c8_theorem zipNavOnly ("book.epub".data)).1,
    (c8_theorem zipNavOnly ("book.epub".data)).2 bookNav (by decide)⟩

/-- Claim C10: If the container and manifest parse, and every retained spine
entry vanishes (classifier-skipped, or resolved-but-absent from the archive,
or blank after conversion), the conversion still succeeds and returns a book
with empty content and size 0. -/
theorem c10_theorem (z : Zip) (nm : Str) (cf : RawFile) (rfn : XNode) (fp : Str)
    (opfF : RawFile)
    (h1 : zipFile z ("META-INF/container.xml".data) = some cf)
    (h2 : findTag (parseAsXml cf) ("rootfile".data) = some rfn)
    (h3 : nodeAttr rfn ("full-path".data) = some fp)
    (h4 : fp ≠ [])
    (h5 : zipFile z fp = some opfF)
    (hv : ∀ j (hj : j < (buildSpine (parseAsXml opfF)
        (buildManifest (parseAsXml opfF))).length),
      itemVanishes z (dirOf fp) (buildManifest (parseAsXml opfF)) j
        ((buildSpine (parseAsXml opfF) (buildManifest (parseAsXml opfF))).get
          ⟨j, hj⟩) = true) :
    (convertEpubToText z nm).2.2 =
      Except.ok
        { filename := nm,
          title := metaField (parseAsXml opfF) ("title".data) ("Untitled".data),
          author :=
            metaField (parseAsXml opfF) ("creator".data) ("Unknown Author".data),
          content := [], size := 0 } := by
  have hz := goSpine_vanish z (dirOf fp) (buildManifest (parseAsXml opfF))
    (buildSpine (parseAsXml opfF) (buildManifest (parseAsXml opfF))).length
    (buildSpine (parseAsXml opfF) (buildManifest (parseAsXml opfF))) 0
    (fun j hj => by rw [Nat.zero_add]; exact hv j hj)
  rcases hgo : goSpine z (dirOf fp) (buildManifest (parseAsXml opfF))
      (buildSpine (parseAsXml opfF) (buildManifest (parseAsXml opfF))).length
      (buildSpine (parseAsXml opfF) (buildManifest (parseAsXml opfF))) 0
    with ⟨evs, lgs, r⟩
  rw [hgo] at hz
  simp only at hz
  subst hz
  rw [convert_ok_of_parse z nm cf rfn fp opfF evs lgs [] h1 h2 h3 h4 h5 hgo]
  rfl

/-- Witness for `c10_theorem` at the navigation-only archive. -/
theorem c10_witness :
    (convertEpubToText zipNavOnly ("book.epub".data)).2.2 =
      Except.ok
        { filename := "book.epub".data,
          title := metaField (parseAsXml (RawFile.xml opfNavDoc)) ("title".data)
            ("Untitled".data),
          author := metaField (parseAsXml (RawFile.xml opfNavDoc)) ("creator".data)
            ("Unknown Author".data),
          content := [], size := 0 } :=
  c10_theorem zipNavOnly ("book.epub".data) containerFile rootfileNode opfPath
    (RawFile.xml opfNavDoc) rfl rfl rfl (by decide) rfl (by decide)

/-- Claim C1, amended: For a conversion of the canonical two-chapter archive
whose chapters convert to non-blank texts `A` and `B`, the returned content is
`A ++ separator ++ B ++ sepTrimmed`: a separator also follows the last
chapter, and the final trim removes exactly its trailing blank lines, leaving
the blank line and the dash line. -/
theorem c1_amended (A B : Str)
    (hA : extractTextFromHtml (mkChapter A) = A)
    (hB : extractTextFromHtml (mkChapter B) = B)
    (hA0 : A ≠ []) (hB0 : B ≠ []) :
    Except.map (fun bk => bk.content)
        ((convertEpubToText (zipTwo A B) ("book.epub".data)).2.2) =
      Except.ok (A ++ sepStr ++ B ++ sepTrimmed) := by
  have hta : jsTrim A = A := jsTrim_of_extract _ _ hA
  have htb : jsTrim B = B := jsTrim_of_extract _ _ hB
  have p1 : processItem (zipTwo A B) ("OEBPS/".data) (buildManifest opfTwoDoc) 0
      ("c1".data) = ([], Except.ok (A ++ sepStr)) :=
    processItem_chapter (zipTwo A B) ("OEBPS/".data) (buildManifest opfTwoDoc) 0
      ("c1".data)
      { id := "c1".data, href := "ch1.html".data,
        mediaType := "application/xhtml+xml".data, properties := [] }
      ("OEBPS/ch1.html".data) (mkChapter A) A
      (by decide) (by decide) (by decide) (by decide) rfl hA hta hA0
  have p2 : processItem (zipTwo A B) ("OEBPS/".data) (buildManifest opfTwoDoc) 1
      ("c2".data) = ([], Except.ok (B ++ sepStr)) :=
    processItem_chapter (zipTwo A B) ("OEBPS/".data) (buildManifest opfTwoDoc) 1
      ("c2".data)
      { id := "c2".data, href := "ch2.html".data,
        mediaType := "application/xhtml+xml".data, properties := [] }
      ("OEBPS/ch2.html".data) (mkChapter B) B
      (by decide) (by decide) (by decide) (by decide) rfl hB htb hB0
  have hgo : goSpine (zipTwo A B) ("OEBPS/".data) (buildManifest opfTwoDoc) 2
      [("c1".data), ("c2".data)] 0 =
      ([(progressPercent 0 2, chapterMsg 0 2),
        (progressPercent 1 2, chapterMsg 1 2)], [],
        Except.ok (A ++ sepStr ++ (B ++ sepStr))) := by
    simp only [goSpine, p1, p2]
    simp [Except.map]
  have hcv := convert_ok_of_parse (zipTwo A B) ("book.epub".data) containerFile
    rootfileNode opfPath (RawFile.xml opfTwoDoc)
    [(progressPercent 0 2, chapterMsg 0 2), (progressPercent 1 2, chapterMsg 1 2)]
    [] (A ++ sepStr ++ (B ++ sepStr)) rfl rfl rfl (by decide) rfl hgo
  rw [hcv]
  simp only [Except.map]
  rw [jsTrim_two_chapters A B hta hA0]

/-- Witness for `c1_amended` at the chapter texts `"A"` and `"B"`. -/
theorem c1_witness :
    Except.map (fun bk => bk.content)
        ((convertEpubToText (zipTwo ("A".data) ("B".data)) ("book.epub".data)).2.2) =
      Except.ok (("A".data) ++ sepStr ++ ("B".data) ++ sepTrimmed) :=
  c1_amended ("A".data) ("B".data) (by decide) (by decide) (by decide) (by decide)

end Epub2Txt
